import Mathlib

/-!
Shallow embedding of `src/trading_bots.py` (grid-trading calculator for
Binance perpetual futures): grid-level generation with tick snapping,
order counting, closest-level lookup, and the futures risk/liquidation
arithmetic.  Python floats are modelled as exact rationals (`ℚ`), Python
ints as `ℤ`, and Python exceptions as `Except BotError`.
-/

/-- Error kinds raised by the Python source: `ZeroDivisionError` from
unguarded divisions, `ValueError` from the validated setters (the spec's
`InvalidParameter`), `IndexError` from out-of-range list indexing, and a
marker for loops that would not terminate on inputs outside the
collaborator's contract. -/
inductive BotError where
  | divisionByZero
  | invalidParameter
  | indexError
  | nonTermination
  deriving DecidableEq

/-- The `strategy` literal of `FuturesGridBot`: one of
`"long" | "short" | "neutral"`. -/
inductive Strategy where
  | long
  | short
  | neutral
  deriving DecidableEq

/-- State stored by `GridBot.__init__`.  `tick_size` is the value the
source obtains from the `BinanceClient.get_tick_size` collaborator (an
external lookup, modelled here as a construction input). -/
structure GridBot where
  base_asset : String
  quote_asset : String
  grid_number : ℤ
  entry_price : ℚ
  lower_price : ℚ
  upper_price : ℚ
  qty_per_order : ℚ
  tick_size : ℚ
  deriving DecidableEq

/-- `self.grid_interval = (self.upper_price - self.lower_price) / self.grid_number`
from `_generate_grid_levels` (ℚ-division; the `grid_number = 0` case is the
`ZeroDivisionError` captured by `mkGridBot`). -/
def GridBot.grid_interval (b : GridBot) : ℚ :=
  (b.upper_price - b.lower_price) / (b.grid_number : ℚ)

/-- The `_grid_levels` list built by `_generate_grid_levels`: for
`i in range(grid_number)` the price `lower_price + i * grid_interval`
floor-snapped by `(price // tick_size) * tick_size`, then `upper_price`
appended unsnapped.  `range` of a non-positive int is empty, hence
`Int.toNat`. -/
def GridBot.grid_levels (b : GridBot) : List ℚ :=
  ((List.range b.grid_number.toNat).map
    (fun (i : ℕ) => (⌊(b.lower_price + (i : ℚ) * b.grid_interval) / b.tick_size⌋ : ℚ) * b.tick_size))
  ++ [b.upper_price]

/-- `GridBot.__init__`: stores the parameters and eagerly runs
`_generate_grid_levels`, which raises `ZeroDivisionError` when
`grid_number = 0` (the interval division); any other `grid_number`
constructs without validation. -/
def mkGridBot (base_asset quote_asset : String) (grid_number : ℤ)
    (entry_price lower_price upper_price qty_per_order tick_size : ℚ) :
    Except BotError GridBot :=
  if grid_number = 0 then .error .divisionByZero
  else .ok ⟨base_asset, quote_asset, grid_number, entry_price, lower_price,
            upper_price, qty_per_order, tick_size⟩

/-- Fold of `np.argmin(np.abs(grid_levels - price))` over the remaining
levels, carrying the current best (first minimum wins: a later level
replaces the best only when strictly closer). -/
def closestAux (price : ℚ) : List ℚ → ℚ → ℚ
  | [], best => best
  | g :: gs, best => closestAux price gs (if |g - price| < |best - price| then g else best)

/-- `GridBot.closest_grid_level`: the grid level at the first index
minimizing absolute distance to `price` (`np.argmin` returns the first
minimal index).  `grid_levels` always ends in `upper_price`, so the list
is never empty and the `[]` branch is unreachable. -/
def GridBot.closest_grid_level (b : GridBot) (price : ℚ) : ℚ :=
  match b.grid_levels with
  | [] => 0
  | g :: gs => closestAux price gs g

/-- `GridBot.order_count`: with `align` the price is first replaced by the
closest grid level; `buy_count` counts stored levels strictly below the
price and `sell_count` those strictly above (`(grid_levels < price).sum()`
and `(grid_levels > price).sum()` over the whole array, top boundary
included). -/
def GridBot.order_count (b : GridBot) (price : ℚ) (align : Bool) : ℕ × ℕ :=
  let price := if align then b.closest_grid_level price else price
  (b.grid_levels.countP (fun g => decide (g < price)),
   b.grid_levels.countP (fun g => decide (price < g)))

/-- State stored by `FuturesGridBot.__init__`: the base grid state plus
`leverage` (stored unvalidated; the Python default argument is `1`),
`strategy`, and the instance's maintenance margin rate
(`_MAINTENANCE_MARGIN_RATE`, class default `0.004`). -/
structure FuturesGridBot extends GridBot where
  leverage : ℤ
  strategy : Strategy
  maintenance_margin_rate : ℚ
  deriving DecidableEq

/-- The class default `_MAINTENANCE_MARGIN_RATE = 0.004` (ETHUSDT Perp,
notional below 50000 USDT). -/
def defaultMaintenanceMarginRate : ℚ := 4 / 1000

/-- `FuturesGridBot.__init__`: runs the base constructor (propagating its
`ZeroDivisionError`), then stores `leverage` and `strategy` without any
validation. -/
def mkFuturesGridBot (base_asset quote_asset : String) (grid_number : ℤ)
    (entry_price lower_price upper_price qty_per_order tick_size : ℚ)
    (leverage : ℤ) (strategy : Strategy) : Except BotError FuturesGridBot :=
  match mkGridBot base_asset quote_asset grid_number entry_price lower_price
      upper_price qty_per_order tick_size with
  | .error e => .error e
  | .ok g => .ok ⟨g, leverage, strategy, defaultMaintenanceMarginRate⟩

/-- `FuturesGridBot.set_leverage`: raises `ValueError` (the spec's
`InvalidParameter`) unless `1 ≤ leverage ≤ 125`; on success the stored
leverage becomes the argument, on failure the state is untouched. -/
def FuturesGridBot.set_leverage (b : FuturesGridBot) (leverage : ℤ) :
    Except BotError FuturesGridBot :=
  if leverage < 1 ∨ leverage > 125 then .error .invalidParameter
  else .ok { b with leverage := leverage }

/-- `FuturesGridBot.set_maintenance_margin_rate`: raises `ValueError`
for negative rates, otherwise stores the rate. -/
def FuturesGridBot.set_maintenance_margin_rate (b : FuturesGridBot) (rate : ℚ) :
    Except BotError FuturesGridBot :=
  if rate < 0 then .error .invalidParameter
  else .ok { b with maintenance_margin_rate := rate }

/-- `FuturesGridBot.initial_position_size` at an explicit price:
`qty_per_order * (sell_count - 1)` for long, `qty_per_order * (buy_count - 1)`
for short, `0` for neutral (the strategy enumeration is closed, so the
`ValueError` branch for unknown strategies is unrepresentable). -/
def FuturesGridBot.initial_position_size (b : FuturesGridBot) (price : ℚ) : ℚ :=
  match b.strategy with
  | .long => b.qty_per_order * ((b.toGridBot.order_count price false).2 - (1 : ℤ))
  | .short => b.qty_per_order * ((b.toGridBot.order_count price false).1 - (1 : ℤ))
  | .neutral => 0

/-- `FuturesGridBot.initial_margin_required` at an explicit price:
`initial_position_size(price) * price / leverage`. -/
def FuturesGridBot.initial_margin_required (b : FuturesGridBot) (price : ℚ) : ℚ :=
  b.initial_position_size price * price / (b.leverage : ℚ)

/-- One step of the accumulation loop in `FuturesGridBot.liquidation_price`:
for a grid level `g ≥ price`, add `qty_per_order * g` to the position
notional, `qty_per_order` to the quantity, and subtract
`qty_per_order * (g - price)` from the unrealized PnL. -/
def liqStep (qty price : ℚ) (acc : ℚ × ℚ × ℚ) (g : ℚ) : ℚ × ℚ × ℚ :=
  if g ≥ price then (acc.1 + qty * g, acc.2.1 + qty, acc.2.2 - qty * (g - price))
  else acc

/-- `FuturesGridBot.liquidation_price`: iterates over
`grid_levels[i]` for `i in range(grid_number)` (the first `grid_number`
entries, excluding the appended top boundary) accumulating position
notional, quantity and unrealized PnL over levels `≥ price`; then
`maintenance_margin = total_position_size * rate`,
`cross_margin = invested_amount + unrealized_pnl`,
`multiplier = 1 - 1/leverage` (a `ZeroDivisionError` when `leverage = 0`),
and the final division raises `ZeroDivisionError` when
`total_qty * multiplier = 0`. -/
def FuturesGridBot.liquidation_price (b : FuturesGridBot)
    (invested_amount price : ℚ) : Except BotError ℚ :=
  let acc := (b.toGridBot.grid_levels.take b.grid_number.toNat).foldl
    (liqStep b.qty_per_order price) ((0 : ℚ), (0 : ℚ), (0 : ℚ))
  let maintenance_margin := acc.1 * b.maintenance_margin_rate
  let cross_margin := invested_amount + acc.2.2
  if b.leverage = 0 then .error .divisionByZero
  else
    let multiplier := 1 - 1 / (b.leverage : ℚ)
    if acc.2.1 * multiplier = 0 then .error .divisionByZero
    else .ok (b.entry_price - (cross_margin - maintenance_margin) / (acc.2.1 * multiplier))

/-- The `while` loop of `FuturesGridBot.best_deleverage_price`: while
`price ≥ lower_price`, test `liquidation_price(invested_amount, price) < price`;
when true decrement `price` by `tick_size` and retry, when false stop at the
current price; a price below `lower_price` exits the loop and is returned.
A `liquidation_price` exception propagates.  A non-positive `tick_size`
would make the source loop forever (the collaborator's tick size is
positive), modelled as `nonTermination`. -/
def bestDeleverageLoop (b : FuturesGridBot) (invested_amount price : ℚ) :
    Except BotError ℚ :=
  if h : 0 < b.tick_size ∧ b.lower_price ≤ price then
    match b.liquidation_price invested_amount price with
    | .error e => .error e
    | .ok l =>
      if l < price then bestDeleverageLoop b invested_amount (price - b.tick_size)
      else .ok price
  else if 0 < b.tick_size then .ok price
  else .error .nonTermination
termination_by (⌊(price - b.lower_price) / b.tick_size⌋ + 1).toNat
decreasing_by
  have htick := h.1
  have hlow := h.2
  have hnn : (0 : ℚ) ≤ (price - b.lower_price) / b.tick_size :=
    div_nonneg (by linarith) (le_of_lt htick)
  have hfl : (0 : ℤ) ≤ ⌊(price - b.lower_price) / b.tick_size⌋ := Int.floor_nonneg.mpr hnn
  have hsub : (price - b.tick_size - b.lower_price) / b.tick_size
      = (price - b.lower_price) / b.tick_size - 1 := by
    field_simp
    ring
  have : ⌊(price - b.tick_size - b.lower_price) / b.tick_size⌋
      = ⌊(price - b.lower_price) / b.tick_size⌋ - 1 := by
    rw [hsub, Int.floor_sub_one]
  omega

/-- `FuturesGridBot.best_deleverage_price`: starts the downward scan at
`grid_levels[-2]` (an `IndexError` for fewer than two levels, impossible
for any constructed bot since `grid_number ≥ 1` gives `grid_number + 1 ≥ 2`
levels) and runs the `while` loop. -/
def FuturesGridBot.best_deleverage_price (b : FuturesGridBot)
    (invested_amount : ℚ) : Except BotError ℚ :=
  if b.toGridBot.grid_levels.length < 2 then .error .indexError
  else bestDeleverageLoop b invested_amount
    (b.toGridBot.grid_levels.getD (b.toGridBot.grid_levels.length - 2) 0)

/-- The grid levels of index `0..grid_number-1` (the synthetic top boundary
excluded) that satisfy `g ≥ price`: the levels the liquidation loop
accumulates over. -/
def qualifyingLevels (b : FuturesGridBot) (price : ℚ) : List ℚ :=
  (b.toGridBot.grid_levels.take b.grid_number.toNat).filter (fun g => decide (price ≤ g))

/-- The liquidation-price formula as the spec words it: with
`totalQty = qtyPerOrder` per qualifying level,
`totalPositionNotional += qtyPerOrder * g`,
`unrealizedPnl -= qtyPerOrder * (g - price)`,
`maintenanceMargin = totalPositionNotional * maintenanceMarginRate`,
`crossMargin = investedAmount + unrealizedPnl`, the value is
`entryPrice - (crossMargin - maintenanceMargin) / (totalQty * (1 - 1/leverage))`. -/
def liquidation_price_spec (b : FuturesGridBot) (invested_amount price : ℚ) : ℚ :=
  let q := qualifyingLevels b price
  let totalQty := b.qty_per_order * (q.length : ℚ)
  let totalPositionNotional := b.qty_per_order * q.sum
  let unrealizedPnl := -(b.qty_per_order * ((q.map (fun g => g - price)).sum))
  let maintenanceMargin := totalPositionNotional * b.maintenance_margin_rate
  let crossMargin := invested_amount + unrealizedPnl
  b.entry_price - (crossMargin - maintenanceMargin) / (totalQty * (1 - 1 / (b.leverage : ℚ)))

/-- A sample configuration: four intervals from 100 to 200 with tick size 1,
entry 150, one unit per order (the worked example of the spec). -/
def sampleBot : GridBot := ⟨"ETH", "USDT", 4, 150, 100, 200, 1, 1⟩

/-- A degenerate-snapping configuration: four intervals from 100 to 101 with
tick size 1, so every snapped level collapses to 100. -/
def flatBot : GridBot := ⟨"ETH", "USDT", 4, 150, 100, 101, 1, 1⟩

/-- The sample grid with the constructor's default leverage 1. -/
def futBot1 : FuturesGridBot := ⟨sampleBot, 1, .long, defaultMaintenanceMarginRate⟩

/-- The sample grid with leverage 2. -/
def futBot2 : FuturesGridBot := ⟨sampleBot, 2, .long, defaultMaintenanceMarginRate⟩

lemma sampleBot_levels : sampleBot.grid_levels = [100, 125, 150, 175, 200] := by
  have h4 : (4 : ℤ).toNat = 4 := rfl
  norm_num [GridBot.grid_levels, GridBot.grid_interval, sampleBot, h4, List.range_succ]

lemma flatBot_levels : flatBot.grid_levels = [100, 100, 100, 100, 101] := by
  have h4 : (4 : ℤ).toNat = 4 := rfl
  norm_num [GridBot.grid_levels, GridBot.grid_interval, flatBot, h4, List.range_succ]

lemma liqStep_foldl (qty price : ℚ) (l : List ℚ) (a₁ a₂ a₃ : ℚ) :
    l.foldl (liqStep qty price) (a₁, a₂, a₃) =
      (a₁ + qty * (l.filter (fun g => decide (price ≤ g))).sum,
       a₂ + qty * ((l.filter (fun g => decide (price ≤ g))).length : ℚ),
       a₃ - qty * ((l.filter (fun g => decide (price ≤ g))).map (fun g => g - price)).sum) := by
  induction l generalizing a₁ a₂ a₃ with
  | nil => simp
  | cons g gs ih =>
    simp only [List.foldl_cons, List.filter_cons]
    by_cases hg : price ≤ g
    · rw [liqStep, if_pos (by exact hg), ih]
      simp only [hg, decide_True, if_true, List.sum_cons, List.length_cons, List.map_cons,
        Prod.mk.injEq, eq_self_iff_true]
      refine ⟨?_, ?_, ?_⟩ <;> push_cast <;> ring
    · rw [liqStep, if_neg (by exact hg), ih]
      simp [hg]

lemma grid_levels_length (b : GridBot) :
    b.grid_levels.length = b.grid_number.toNat + 1 := by
  simp [GridBot.grid_levels]

lemma grid_levels_getD (b : GridBot) (i : ℕ) (h : i < b.grid_number.toNat) :
    b.grid_levels.getD i 0 =
      (⌊(b.lower_price + (i : ℚ) * b.grid_interval) / b.tick_size⌋ : ℚ) * b.tick_size := by
  rw [GridBot.grid_levels, List.getD_eq_getElem?_getD,
    List.getElem?_append_left (by simpa using h), List.getElem?_map,
    List.getElem?_range h]
  rfl

lemma grid_levels_getLast (b : GridBot) :
    b.grid_levels.getLast? = some b.upper_price := by
  rw [GridBot.grid_levels, List.getLast?_concat]

/-- Claim C1: for every configuration with `gridCount ≥ 1`, the grid-levels
sequence has exactly `gridCount + 1` entries; for every `i` in
`[0, gridCount)` the `i`-th entry equals
`⌊(lowerBound + i * interval) / tickSize⌋ * tickSize` with
`interval = (upperBound - lowerBound) / gridCount`; and the final entry
equals `upperBound` exactly (unsnapped). -/
theorem claim_C1_grid_level_values (b : GridBot) (h : 1 ≤ b.grid_number) :
    (b.grid_levels.length : ℤ) = b.grid_number + 1 ∧
    (∀ i : ℕ, (i : ℤ) < b.grid_number →
      b.grid_levels.getD i 0 =
        (⌊(b.lower_price + (i : ℚ) * ((b.upper_price - b.lower_price) / (b.grid_number : ℚ)))
            / b.tick_size⌋ : ℚ) * b.tick_size) ∧
    b.grid_levels.getLast? = some b.upper_price := by
  refine ⟨?_, ?_, grid_levels_getLast b⟩
  · rw [grid_levels_length]
    push_cast
    omega
  · intro i hi
    have hi' : i < b.grid_number.toNat := by omega
    rw [grid_levels_getD b i hi', GridBot.grid_interval]

theorem claim_C1_witness :
    1 ≤ sampleBot.grid_number ∧
    ((sampleBot.grid_levels.length : ℤ) = sampleBot.grid_number + 1 ∧
    (∀ i : ℕ, (i : ℤ) < sampleBot.grid_number →
      sampleBot.grid_levels.getD i 0 =
        (⌊(sampleBot.lower_price +
            (i : ℚ) * ((sampleBot.upper_price - sampleBot.lower_price) / (sampleBot.grid_number : ℚ)))
            / sampleBot.tick_size⌋ : ℚ) * sampleBot.tick_size) ∧
    sampleBot.grid_levels.getLast? = some sampleBot.upper_price) :=
  ⟨by norm_num [sampleBot], claim_C1_grid_level_values sampleBot (by norm_num [sampleBot])⟩

/-- Claim C7 (amended): construction with `gridCount = 0` fails with the
unguarded `DivisionByZero` arithmetic fault from the interval computation,
and construction with `gridCount < 0` succeeds without any error, yielding
the degenerate single-entry level list `[upperBound]`; no explicit
`InvalidConfiguration` validation error is raised. -/
theorem claim_C7_construction_behavior (ba qa : String) (g : ℤ)
    (ep lp up qty ts : ℚ) (h : g < 1) :
    (g = 0 → mkGridBot ba qa g ep lp up qty ts = .error .divisionByZero) ∧
    (g < 0 →
      mkGridBot ba qa g ep lp up qty ts = .ok ⟨ba, qa, g, ep, lp, up, qty, ts⟩ ∧
      (⟨ba, qa, g, ep, lp, up, qty, ts⟩ : GridBot).grid_levels = [up]) := by
  constructor
  · intro h0
    rw [mkGridBot, if_pos h0]
  · intro hneg
    refine ⟨by rw [mkGridBot, if_neg (by omega)], ?_⟩
    rw [GridBot.grid_levels]
    have h0 : (⟨ba, qa, g, ep, lp, up, qty, ts⟩ : GridBot).grid_number.toNat = 0 := by
      simp only
      omega
    rw [h0]
    simp

theorem claim_C7_counterexample :
    (-1 : ℤ) < 1 ∧
    mkGridBot "ETH" "USDT" (-1) 150 100 200 1 1 =
      .ok ⟨"ETH", "USDT", -1, 150, 100, 200, 1, 1⟩ := by
  refine ⟨by norm_num, ?_⟩
  rw [mkGridBot, if_neg (by norm_num)]

theorem claim_C7_witness :
    (0 : ℤ) < 1 ∧ mkGridBot "ETH" "USDT" 0 150 100 200 1 1 = .error .divisionByZero :=
  ⟨by norm_num,
   (claim_C7_construction_behavior "ETH" "USDT" 0 150 100 200 1 1 (by norm_num)).1 rfl⟩

/-- Claim C4: for every invested amount and every price strictly greater
than every grid level of index in `[0, gridCount)`, `liquidation_price`
fails with a division error (the `ZeroDivisionError` of the final division)
rather than returning a value. -/
theorem claim_C4_no_qualifying_level_fails (b : FuturesGridBot)
    (invested_amount price : ℚ)
    (h : ∀ g ∈ b.toGridBot.grid_levels.take b.grid_number.toNat, g < price) :
    b.liquidation_price invested_amount price = .error .divisionByZero := by
  have hfil : (b.toGridBot.grid_levels.take b.grid_number.toNat).filter
      (fun g => decide (price ≤ g)) = [] := by
    rw [List.filter_eq_nil_iff]
    intro a ha
    simpa using not_le.mpr (h a ha)
  simp only [FuturesGridBot.liquidation_price, liqStep_foldl, hfil, List.sum_nil,
    List.length_nil, List.map_nil, Nat.cast_zero, mul_zero, add_zero, sub_zero, zero_add,
    zero_mul, zero_sub]
  by_cases hl : b.leverage = 0
  · rw [if_pos hl]
  · rw [if_neg hl]
    simp

theorem claim_C4_witness :
    (∀ g ∈ futBot2.toGridBot.grid_levels.take futBot2.grid_number.toNat, g < 300) ∧
    futBot2.liquidation_price 5 300 = .error .divisionByZero := by
  have ht : futBot2.toGridBot.grid_levels.take futBot2.grid_number.toNat
      = [100, 125, 150, 175] := by
    rw [show futBot2.toGridBot = sampleBot from rfl, sampleBot_levels]
    rfl
  have h : ∀ g ∈ futBot2.toGridBot.grid_levels.take futBot2.grid_number.toNat, g < 300 := by
    rw [ht]
    norm_num
  exact ⟨h, claim_C4_no_qualifying_level_fails futBot2 5 300 h⟩

/-- Claim C10: when `leverage = 1` (the constructor default), the
denominator `totalQty * (1 - 1/leverage)` is zero even when at least one
grid level satisfies `g ≥ price`, so the unguarded final division fails
with `ZeroDivisionError` and `liquidation_price` has no defined result. -/
theorem claim_C10_leverage_one_fails (b : FuturesGridBot)
    (invested_amount price : ℚ) (hlev : b.leverage = 1)
    (hq : ∃ g ∈ b.toGridBot.grid_levels.take b.grid_number.toNat, price ≤ g) :
    b.liquidation_price invested_amount price = .error .divisionByZero := by
  simp only [FuturesGridBot.liquidation_price, hlev]
  norm_num

theorem claim_C10_witness :
    futBot1.leverage = 1 ∧
    (∃ g ∈ futBot1.toGridBot.grid_levels.take futBot1.grid_number.toNat, (100 : ℚ) ≤ g) ∧
    futBot1.liquidation_price 1000 100 = .error .divisionByZero := by
  have ht : futBot1.toGridBot.grid_levels.take futBot1.grid_number.toNat
      = [100, 125, 150, 175] := by
    rw [show futBot1.toGridBot = sampleBot from rfl, sampleBot_levels]
    rfl
  have hq : ∃ g ∈ futBot1.toGridBot.grid_levels.take futBot1.grid_number.toNat, (100 : ℚ) ≤ g := by
    rw [ht]
    exact ⟨100, by norm_num⟩
  exact ⟨rfl, hq, claim_C10_leverage_one_fails futBot1 1000 100 rfl hq⟩

lemma countP_lt_gt_eq (p : ℚ) (l : List ℚ) :
    l.countP (fun x => decide (x < p)) + l.countP (fun x => decide (p < x))
      + l.countP (fun x => decide (x = p)) = l.length := by
  induction l with
  | nil => simp
  | cons a l ih =>
    simp only [List.countP_cons, List.length_cons]
    rcases lt_trichotomy a p with h | h | h
    · have h1 : decide (a < p) = true := by simpa using h
      have h2 : decide (p < a) = false := by simpa using asymm h
      have h3 : decide (a = p) = false := by simpa using ne_of_lt h
      simp only [h1, h2, h3, if_true, if_false, Bool.false_eq_true]
      omega
    · have h1 : decide (a < p) = false := by simpa using h.ge
      have h2 : decide (p < a) = false := by simpa using h.le
      have h3 : decide (a = p) = true := by simpa using h
      simp only [h1, h2, h3, if_true, if_false, Bool.false_eq_true]
      omega
    · have h1 : decide (a < p) = false := by simpa using asymm h
      have h2 : decide (p < a) = true := by simpa using h
      have h3 : decide (a = p) = false := by simpa using (ne_of_lt h).symm
      simp only [h1, h2, h3, if_true, if_false, Bool.false_eq_true]
      omega

lemma countP_eq_zero_iff_not_mem (p : ℚ) (l : List ℚ) :
    l.countP (fun x => decide (x = p)) = 0 ↔ p ∉ l := by
  rw [List.countP_eq_zero]
  simp only [decide_eq_true_eq]
  constructor
  · intro hz hmem
    exact hz p hmem rfl
  · intro hnm a ha heq
    exact hnm (heq ▸ ha)

lemma order_count_false (b : GridBot) (price : ℚ) :
    b.order_count price false =
      (b.grid_levels.countP (fun g => decide (g < price)),
       b.grid_levels.countP (fun g => decide (price < g))) := by
  simp [GridBot.order_count]

/-- Claim C5: for every price, `order_count(price, align=false)` returns the
number of stored grid levels strictly below the price and the number strictly
above it (levels equal to the price counted in neither); consequently
`buyCount + sellCount ≤ gridCount + 1`, with equality exactly when no stored
level equals the price. -/
theorem claim_C5_order_count (b : GridBot) (price : ℚ) (h : 1 ≤ b.grid_number) :
    b.order_count price false =
      (b.grid_levels.countP (fun g => decide (g < price)),
       b.grid_levels.countP (fun g => decide (price < g))) ∧
    (((b.order_count price false).1 : ℤ) + ((b.order_count price false).2 : ℤ)
        ≤ b.grid_number + 1) ∧
    ((((b.order_count price false).1 : ℤ) + ((b.order_count price false).2 : ℤ)
        = b.grid_number + 1) ↔ price ∉ b.grid_levels) := by
  have htri := countP_lt_gt_eq price b.grid_levels
  rw [grid_levels_length b] at htri
  have hz := countP_eq_zero_iff_not_mem price b.grid_levels
  refine ⟨order_count_false b price, ?_, ?_⟩
  · simp only [order_count_false]
    omega
  · rw [← hz]
    simp only [order_count_false]
    constructor
    · intro he
      omega
    · intro he
      omega

theorem claim_C5_witness :
    1 ≤ sampleBot.grid_number ∧
    (sampleBot.order_count 150 false =
      (sampleBot.grid_levels.countP (fun g => decide (g < 150)),
       sampleBot.grid_levels.countP (fun g => decide ((150 : ℚ) < g))) ∧
    (((sampleBot.order_count 150 false).1 : ℤ) + ((sampleBot.order_count 150 false).2 : ℤ)
        ≤ sampleBot.grid_number + 1) ∧
    ((((sampleBot.order_count 150 false).1 : ℤ) + ((sampleBot.order_count 150 false).2 : ℤ)
        = sampleBot.grid_number + 1) ↔ (150 : ℚ) ∉ sampleBot.grid_levels)) :=
  ⟨by norm_num [sampleBot], claim_C5_order_count sampleBot 150 (by norm_num [sampleBot])⟩

/-- Claim C2 (amended): for every invested amount and price such that some
grid level of index in `[0, gridCount)` satisfies `g ≥ price`, and provided
the division is defined — `leverage ∉ {0, 1}` and `qtyPerOrder ≠ 0`, so the
denominator `totalQty * (1 - 1/leverage)` is nonzero — `liquidation_price`
returns `entryPrice - (crossMargin - maintenanceMargin) / (totalQty * (1 - 1/leverage))`
with the accumulators taken over exactly the qualifying levels. -/
theorem claim_C2_liquidation_formula (b : FuturesGridBot) (invested_amount price : ℚ)
    (hq : qualifyingLevels b price ≠ [])
    (h0 : b.leverage ≠ 0) (h1 : b.leverage ≠ 1) (hqty : b.qty_per_order ≠ 0) :
    b.liquidation_price invested_amount price =
      .ok (liquidation_price_spec b invested_amount price) := by
  have hzc : (b.leverage : ℚ) ≠ 0 := Int.cast_ne_zero.mpr h0
  have hmul : (1 : ℚ) - 1 / (b.leverage : ℚ) ≠ 0 := by
    intro hcon
    have hone : (1 : ℚ) / (b.leverage : ℚ) = 1 := by linarith
    have hlev : (b.leverage : ℚ) = 1 := by
      field_simp at hone
      linarith
    exact h1 (by exact_mod_cast hlev)
  have hlen : (qualifyingLevels b price).length ≠ 0 := by
    simpa [List.length_eq_zero] using hq
  have htq : b.qty_per_order * (((qualifyingLevels b price).length : ℕ) : ℚ) ≠ 0 :=
    mul_ne_zero hqty (Nat.cast_ne_zero.mpr hlen)
  have hden : b.qty_per_order * (((qualifyingLevels b price).length : ℕ) : ℚ)
      * ((1 : ℚ) - 1 / (b.leverage : ℚ)) ≠ 0 := mul_ne_zero htq hmul
  simp only [FuturesGridBot.liquidation_price, liqStep_foldl, zero_add, zero_sub]
  rw [if_neg h0]
  rw [if_neg (by simpa [qualifyingLevels] using hden)]
  simp only [liquidation_price_spec, qualifyingLevels]

theorem claim_C2_counterexample :
    qualifyingLevels futBot1 100 ≠ [] ∧
    futBot1.liquidation_price 1000 100 = .error .divisionByZero ∧
    futBot1.liquidation_price 1000 100 ≠ .ok (liquidation_price_spec futBot1 1000 100) := by
  have hq : qualifyingLevels futBot1 100 = [100, 125, 150, 175] := by
    rw [qualifyingLevels, show futBot1.toGridBot = sampleBot from rfl, sampleBot_levels,
      show List.take sampleBot.grid_number.toNat ([100, 125, 150, 175, 200] : List ℚ)
          = [100, 125, 150, 175] from rfl]
    norm_num [List.filter_cons]
  have herr : futBot1.liquidation_price 1000 100 = .error .divisionByZero := by
    simp only [FuturesGridBot.liquidation_price, show futBot1.leverage = (1 : ℤ) from rfl]
    norm_num
  refine ⟨by rw [hq]; simp, herr, by rw [herr]; simp⟩

theorem claim_C2_witness :
    qualifyingLevels futBot2 175 ≠ [] ∧ futBot2.leverage ≠ 0 ∧ futBot2.leverage ≠ 1 ∧
    futBot2.qty_per_order ≠ 0 ∧
    futBot2.liquidation_price 0 175 = .ok (liquidation_price_spec futBot2 0 175) := by
  have hq : qualifyingLevels futBot2 175 ≠ [] := by
    rw [qualifyingLevels, show futBot2.toGridBot = sampleBot from rfl, sampleBot_levels,
      show List.take sampleBot.grid_number.toNat ([100, 125, 150, 175, 200] : List ℚ)
          = [100, 125, 150, 175] from rfl]
    norm_num [List.filter_cons]
  have h0 : futBot2.leverage ≠ 0 := by norm_num [futBot2]
  have h1 : futBot2.leverage ≠ 1 := by norm_num [futBot2]
  have hqty : futBot2.qty_per_order ≠ 0 := by norm_num [futBot2, sampleBot]
  exact ⟨hq, h0, h1, hqty, claim_C2_liquidation_formula futBot2 0 175 hq h0 h1 hqty⟩

/-- Claim C8 (amended): the constructor stores its leverage argument without
validation, so the invariant `1 ≤ leverage ≤ 125` holds after construction
with the default argument `1` and after every successful `set_leverage`;
`set_leverage` succeeds exactly on values in `[1, 125]` (storing the value)
and fails with `InvalidParameter` otherwise, leaving the state unchanged. -/
theorem claim_C8_leverage_invariant :
    (∀ (ba qa : String) (g : ℤ) (ep lp up qty ts : ℚ) (s : Strategy) (fb : FuturesGridBot),
        mkFuturesGridBot ba qa g ep lp up qty ts 1 s = .ok fb →
          fb.leverage = 1 ∧ 1 ≤ fb.leverage ∧ fb.leverage ≤ 125) ∧
    (∀ (b : FuturesGridBot) (v : ℤ), 1 ≤ v → v ≤ 125 →
        b.set_leverage v = .ok { b with leverage := v }) ∧
    (∀ (b b' : FuturesGridBot) (v : ℤ), b.set_leverage v = .ok b' →
        1 ≤ b'.leverage ∧ b'.leverage ≤ 125) ∧
    (∀ (b : FuturesGridBot) (v : ℤ), v < 1 ∨ v > 125 →
        b.set_leverage v = .error .invalidParameter) := by
  refine ⟨?_, ?_, ?_, ?_⟩
  · intro ba qa g ep lp up qty ts s fb hmk
    simp only [mkFuturesGridBot] at hmk
    rcases hg : mkGridBot ba qa g ep lp up qty ts with e | gb
    · rw [hg] at hmk
      exact absurd hmk (by simp)
    · rw [hg] at hmk
      simp only [Except.ok.injEq] at hmk
      subst hmk
      exact ⟨rfl, by norm_num, by norm_num⟩
  · intro b v hv1 hv2
    simp only [FuturesGridBot.set_leverage]
    rw [if_neg (by omega)]
  · intro b b' v hset
    simp only [FuturesGridBot.set_leverage] at hset
    by_cases hv : v < 1 ∨ v > 125
    · rw [if_pos hv] at hset
      exact absurd hset (by simp)
    · rw [if_neg hv] at hset
      simp only [Except.ok.injEq] at hset
      subst hset
      exact ⟨show (1 : ℤ) ≤ v by omega, show v ≤ 125 by omega⟩
  · intro b v hv
    simp only [FuturesGridBot.set_leverage]
    rw [if_pos hv]

theorem claim_C8_counterexample :
    (mkFuturesGridBot "ETH" "USDT" 4 150 100 200 1 1 200 .long).map FuturesGridBot.leverage
      = .ok 200 ∧ ¬ ((200 : ℤ) ≤ 125) := by
  constructor
  · simp only [mkFuturesGridBot, mkGridBot]
    norm_num [Except.map]
  · norm_num

theorem claim_C8_witness :
    1 ≤ (50 : ℤ) ∧ (50 : ℤ) ≤ 125 ∧
    futBot2.set_leverage 50 = .ok { futBot2 with leverage := 50 } ∧
    ((200 : ℤ) < 1 ∨ (200 : ℤ) > 125) ∧
    futBot2.set_leverage 200 = .error .invalidParameter :=
  ⟨by norm_num, by norm_num,
   claim_C8_leverage_invariant.2.1 futBot2 50 (by norm_num) (by norm_num),
   by norm_num,
   claim_C8_leverage_invariant.2.2.2 futBot2 200 (by norm_num)⟩

lemma snap_le_self (t : ℚ) (ht : 0 < t) (x : ℚ) : (⌊x / t⌋ : ℚ) * t ≤ x := by
  have h := Int.floor_le (x / t)
  calc (⌊x / t⌋ : ℚ) * t ≤ x / t * t := mul_le_mul_of_nonneg_right h ht.le
    _ = x := div_mul_cancel₀ x ht.ne.symm

lemma snap_mono (t : ℚ) (ht : 0 < t) {x y : ℚ} (hxy : x ≤ y) :
    (⌊x / t⌋ : ℚ) * t ≤ (⌊y / t⌋ : ℚ) * t := by
  have hf : ⌊x / t⌋ ≤ ⌊y / t⌋ := Int.floor_le_floor (by gcongr)
  exact mul_le_mul_of_nonneg_right (by exact_mod_cast hf) ht.le

lemma raw_lt_upper (b : GridBot) (h1 : 1 ≤ b.grid_number)
    (h2 : b.lower_price < b.upper_price) (i : ℕ) (hi : i < b.grid_number.toNat) :
    b.lower_price + (i : ℚ) * b.grid_interval < b.upper_price := by
  have hg0 : (0 : ℚ) < (b.grid_number : ℚ) := by exact_mod_cast (by omega : (0 : ℤ) < b.grid_number)
  have hd : 0 < b.grid_interval := div_pos (by linarith) hg0
  have hin : (i : ℚ) ≤ (b.grid_number : ℚ) - 1 := by
    have hiz : (i : ℤ) ≤ b.grid_number - 1 := by omega
    have hcast : (((i : ℤ) : ℚ)) ≤ (((b.grid_number - 1 : ℤ) : ℚ)) := by exact_mod_cast hiz
    push_cast at hcast
    linarith
  have hgd : (b.grid_number : ℚ) * b.grid_interval = b.upper_price - b.lower_price := by
    rw [GridBot.grid_interval]
    field_simp
  have hle : (i : ℚ) * b.grid_interval ≤ ((b.grid_number : ℚ) - 1) * b.grid_interval :=
    mul_le_mul_of_nonneg_right hin hd.le
  have hexp : ((b.grid_number : ℚ) - 1) * b.grid_interval
      = (b.upper_price - b.lower_price) - b.grid_interval := by
    rw [sub_mul, one_mul, hgd]
  linarith

/-- Claim C6 (amended): for every valid configuration (`gridCount ≥ 1`,
`lowerBound < upperBound`, `tickSize > 0`), `grid_levels` has exactly
`gridCount + 1` entries, is non-decreasing (not necessarily strictly:
floor-snapping can collapse neighbouring levels when the interval is
smaller than the tick), every entry before the last is strictly below
`upperBound`, and the last entry equals `upperBound` exactly. -/
theorem claim_C6_grid_levels_shape (b : GridBot) (h1 : 1 ≤ b.grid_number)
    (h2 : b.lower_price < b.upper_price) (h3 : 0 < b.tick_size) :
    (b.grid_levels.length : ℤ) = b.grid_number + 1 ∧
    b.grid_levels.Pairwise (· ≤ ·) ∧
    (∀ x ∈ b.grid_levels.dropLast, x < b.upper_price) ∧
    b.grid_levels.getLast? = some b.upper_price := by
  have hg0 : (0 : ℚ) < (b.grid_number : ℚ) := by exact_mod_cast (by omega : (0 : ℤ) < b.grid_number)
  have hd : 0 < b.grid_interval := div_pos (by linarith) hg0
  refine ⟨?_, ?_, ?_, grid_levels_getLast b⟩
  · rw [grid_levels_length]
    push_cast
    omega
  · rw [GridBot.grid_levels, List.pairwise_append]
    refine ⟨?_, by simp, ?_⟩
    · rw [List.pairwise_map]
      refine (List.pairwise_lt_range _).imp ?_
      intro i j hij
      refine snap_mono b.tick_size h3 ?_
      have : (i : ℚ) ≤ (j : ℚ) := by exact_mod_cast hij.le
      nlinarith
    · intro x hx y hy
      simp only [List.mem_singleton] at hy
      subst hy
      simp only [List.mem_map, List.mem_range] at hx
      obtain ⟨i, hi, rfl⟩ := hx
      exact le_of_lt (lt_of_le_of_lt (snap_le_self _ h3 _) (raw_lt_upper b h1 h2 i hi))
  · rw [GridBot.grid_levels, List.dropLast_concat]
    intro x hx
    simp only [List.mem_map, List.mem_range] at hx
    obtain ⟨i, hi, rfl⟩ := hx
    exact lt_of_le_of_lt (snap_le_self _ h3 _) (raw_lt_upper b h1 h2 i hi)

theorem claim_C6_counterexample :
    (1 ≤ flatBot.grid_number ∧ flatBot.lower_price < flatBot.upper_price ∧
      0 < flatBot.tick_size) ∧
    ¬ flatBot.grid_levels.Pairwise (· < ·) := by
  refine ⟨by norm_num [flatBot], ?_⟩
  rw [flatBot_levels]
  intro hp
  cases hp with
  | cons hhead htail =>
    exact absurd (hhead 100 (List.mem_cons_self 100 _)) (by norm_num)

theorem claim_C6_witness :
    (1 ≤ sampleBot.grid_number ∧ sampleBot.lower_price < sampleBot.upper_price ∧
      0 < sampleBot.tick_size) ∧
    ((sampleBot.grid_levels.length : ℤ) = sampleBot.grid_number + 1 ∧
    sampleBot.grid_levels.Pairwise (· ≤ ·) ∧
    (∀ x ∈ sampleBot.grid_levels.dropLast, x < sampleBot.upper_price) ∧
    sampleBot.grid_levels.getLast? = some sampleBot.upper_price) :=
  ⟨by norm_num [sampleBot],
   claim_C6_grid_levels_shape sampleBot (by norm_num [sampleBot]) (by norm_num [sampleBot])
     (by norm_num [sampleBot])⟩

lemma closestAux_mem (p : ℚ) (l : List ℚ) (best : ℚ) :
    closestAux p l best ∈ best :: l := by
  induction l generalizing best with
  | nil => simp [closestAux]
  | cons g gs ih =>
    rw [closestAux]
    by_cases himp : |g - p| < |best - p|
    · rw [if_pos himp]
      rcases List.mem_cons.mp (ih g) with h | h
      · rw [h]
        simp
      · simp [h]
    · rw [if_neg himp]
      rcases List.mem_cons.mp (ih best) with h | h
      · rw [h]
        simp
      · simp [h]

lemma closestAux_min (p : ℚ) (l : List ℚ) (best : ℚ) :
    |closestAux p l best - p| ≤ |best - p| ∧
    ∀ x ∈ l, |closestAux p l best - p| ≤ |x - p| := by
  induction l generalizing best with
  | nil => simp [closestAux]
  | cons g gs ih =>
    rw [closestAux]
    by_cases himp : |g - p| < |best - p|
    · rw [if_pos himp]
      obtain ⟨h1, h2⟩ := ih g
      refine ⟨le_of_lt (lt_of_le_of_lt h1 himp), ?_⟩
      intro x hx
      rcases List.mem_cons.mp hx with rfl | hx
      · exact h1
      · exact h2 x hx
    · rw [if_neg himp]
      obtain ⟨h1, h2⟩ := ih best
      refine ⟨h1, ?_⟩
      intro x hx
      rcases List.mem_cons.mp hx with rfl | hx
      · exact le_trans h1 (not_lt.mp himp)
      · exact h2 x hx

lemma closestAux_first (p : ℚ) (l : List ℚ) (best : ℚ) :
    ∃ as bs, best :: l = as ++ closestAux p l best :: bs ∧
      ∀ a ∈ as, |closestAux p l best - p| < |a - p| := by
  induction l generalizing best with
  | nil => exact ⟨[], [], by simp [closestAux], by simp⟩
  | cons g gs ih =>
    rw [closestAux]
    by_cases himp : |g - p| < |best - p|
    · rw [if_pos himp]
      obtain ⟨as, bs, hsplit, hstrict⟩ := ih g
      refine ⟨best :: as, bs, ?_, ?_⟩
      · rw [List.cons_append, ← hsplit]
      · intro a ha
        rcases List.mem_cons.mp ha with rfl | ha
        · exact lt_of_le_of_lt (closestAux_min p gs g).1 himp
        · exact hstrict a ha
    · rw [if_neg himp]
      obtain ⟨as, bs, hsplit, hstrict⟩ := ih best
      cases as with
      | nil =>
        simp only [List.nil_append] at hsplit
        injection hsplit with h1 h2
        refine ⟨[], g :: gs, ?_, by simp⟩
        rw [List.nil_append, ← h1]
      | cons a as₂ =>
        injection hsplit with h1 h2
        refine ⟨best :: g :: as₂, bs, ?_, ?_⟩
        · rw [List.cons_append, List.cons_append]
          exact congrArg (fun l => best :: g :: l) h2
        · intro x hx
          have hbest : |closestAux p gs best - p| < |best - p| := by
            have hs := hstrict a (by simp)
            rwa [← h1] at hs
          rcases List.mem_cons.mp hx with rfl | hx
          · exact hbest
          rcases List.mem_cons.mp hx with rfl | hx
          · exact lt_of_lt_of_le hbest (not_lt.mp himp)
          · exact hstrict x (by simp [hx])

/-- Claim C9: `closest_grid_level` is idempotent —
`closest_grid_level (closest_grid_level x) = closest_grid_level x` — and its
result is the earliest (lowest-index) stored level of minimal absolute
distance to the query: the levels list splits as `as ++ result :: bs` with
every level in `as` strictly farther from `x`, and no level anywhere is
strictly closer. -/
theorem claim_C9_closest_idempotent (b : GridBot) (x : ℚ) :
    b.closest_grid_level (b.closest_grid_level x) = b.closest_grid_level x ∧
    (∃ as bs, b.grid_levels = as ++ b.closest_grid_level x :: bs ∧
      ∀ a ∈ as, |b.closest_grid_level x - x| < |a - x|) ∧
    ∀ y ∈ b.grid_levels, |b.closest_grid_level x - x| ≤ |y - x| := by
  obtain ⟨g, gs, hgl⟩ : ∃ g gs, b.grid_levels = g :: gs := by
    cases hl : b.grid_levels with
    | nil =>
      exact absurd hl (by rw [GridBot.grid_levels]; simp)
    | cons g gs => exact ⟨g, gs, rfl⟩
  have hc : ∀ q : ℚ, b.closest_grid_level q = closestAux q gs g := by
    intro q
    simp only [GridBot.closest_grid_level, hgl]
  have hmem := closestAux_mem x gs g
  have hminx := closestAux_min x gs g
  have hmin2 := closestAux_min (closestAux x gs g) gs g
  have hle : |closestAux (closestAux x gs g) gs g - closestAux x gs g| ≤ 0 := by
    rcases List.mem_cons.mp hmem with hg | hgs
    · calc |closestAux (closestAux x gs g) gs g - closestAux x gs g|
          ≤ |g - closestAux x gs g| := hmin2.1
        _ = 0 := by rw [hg]; simp
    · calc |closestAux (closestAux x gs g) gs g - closestAux x gs g|
          ≤ |closestAux x gs g - closestAux x gs g| := hmin2.2 _ hgs
        _ = 0 := by simp
  have heq : closestAux (closestAux x gs g) gs g = closestAux x gs g :=
    sub_eq_zero.mp (abs_nonpos_iff.mp hle)
  refine ⟨?_, ?_, ?_⟩
  · simp only [hc]
    exact heq
  · rw [hgl]
    simp only [hc]
    exact closestAux_first x gs g
  · rw [hgl]
    simp only [hc]
    intro y hy
    rcases List.mem_cons.mp hy with rfl | hy
    · exact hminx.1
    · exact hminx.2 y hy

lemma bestDeleverageLoop_eq (b : FuturesGridBot) (invested_amount p : ℚ) :
    bestDeleverageLoop b invested_amount p =
      if 0 < b.tick_size ∧ b.lower_price ≤ p then
        match b.liquidation_price invested_amount p with
        | .error e => .error e
        | .ok l =>
          if l < p then bestDeleverageLoop b invested_amount (p - b.tick_size)
          else .ok p
      else if 0 < b.tick_size then .ok p
      else .error .nonTermination := by
  rw [bestDeleverageLoop]
  by_cases hc : 0 < b.tick_size ∧ b.lower_price ≤ p
  · rw [dif_pos hc, if_pos hc]
  · rw [dif_neg hc, if_neg hc]

lemma bestDeleverageLoop_spec (b : FuturesGridBot) (invested_amount : ℚ) :
    ∀ (n : ℕ) (p r : ℚ), (⌊(p - b.lower_price) / b.tick_size⌋ + 1).toNat ≤ n →
      bestDeleverageLoop b invested_amount p = .ok r →
      ∃ k : ℕ, r = p - (k : ℚ) * b.tick_size ∧
        (∀ j : ℕ, j < k →
          b.lower_price ≤ p - (j : ℚ) * b.tick_size ∧
          ∃ l, b.liquidation_price invested_amount (p - (j : ℚ) * b.tick_size) = .ok l ∧
            l < p - (j : ℚ) * b.tick_size) ∧
        (b.lower_price ≤ r →
          ∃ l, b.liquidation_price invested_amount r = .ok l ∧ ¬ l < r) := by
  intro n
  induction n with
  | zero =>
    intro p r hm hrun
    rw [bestDeleverageLoop_eq] at hrun
    by_cases hc : 0 < b.tick_size ∧ b.lower_price ≤ p
    · exfalso
      have h0 : (0 : ℚ) ≤ (p - b.lower_price) / b.tick_size :=
        div_nonneg (by linarith [hc.2]) hc.1.le
      have hf : (0 : ℤ) ≤ ⌊(p - b.lower_price) / b.tick_size⌋ := Int.floor_nonneg.mpr h0
      omega
    · rw [if_neg hc] at hrun
      by_cases ht : 0 < b.tick_size
      · rw [if_pos ht] at hrun
        simp only [Except.ok.injEq] at hrun
        subst hrun
        refine ⟨0, by simp, ?_, ?_⟩
        · intro j hj
          exact absurd hj (by omega)
        · intro hlp
          exact absurd ⟨ht, hlp⟩ hc
      · rw [if_neg ht] at hrun
        exact absurd hrun (by simp)
  | succ n ih =>
    intro p r hm hrun
    rw [bestDeleverageLoop_eq] at hrun
    by_cases hc : 0 < b.tick_size ∧ b.lower_price ≤ p
    · rw [if_pos hc] at hrun
      rcases hliq : b.liquidation_price invested_amount p with e | l
      · rw [hliq] at hrun
        have hrun' : (Except.error e : Except BotError ℚ) = .ok r := hrun
        exact absurd hrun' (by simp)
      · rw [hliq] at hrun
        have hrun' : (if l < p then bestDeleverageLoop b invested_amount (p - b.tick_size)
            else .ok p) = .ok r := hrun
        by_cases hl : l < p
        · rw [if_pos hl] at hrun'
          have hm' : (⌊(p - b.tick_size - b.lower_price) / b.tick_size⌋ + 1).toNat ≤ n := by
            have htne : b.tick_size ≠ 0 := ne_of_gt hc.1
            have hsub : (p - b.tick_size - b.lower_price) / b.tick_size
                = (p - b.lower_price) / b.tick_size - 1 := by
              field_simp
              ring
            have hfl : (0 : ℤ) ≤ ⌊(p - b.lower_price) / b.tick_size⌋ :=
              Int.floor_nonneg.mpr (div_nonneg (by linarith [hc.2]) hc.1.le)
            rw [hsub, Int.floor_sub_one]
            omega
          obtain ⟨k, hk, hall, hstop⟩ := ih (p - b.tick_size) r hm' hrun'
          refine ⟨k + 1, ?_, ?_, hstop⟩
          · rw [hk]
            push_cast
            ring
          · intro j hj
            cases j with
            | zero =>
              refine ⟨by simpa using hc.2, l, by simpa using hliq, by simpa using hl⟩
            | succ j =>
              have hj' : j < k := by omega
              obtain ⟨hlow, l', hliq', hl'⟩ := hall j hj'
              have harith : p - b.tick_size - (j : ℚ) * b.tick_size
                  = p - ((j + 1 : ℕ) : ℚ) * b.tick_size := by
                push_cast
                ring
              refine ⟨?_, l', ?_, ?_⟩
              · rw [← harith]
                exact hlow
              · rw [← harith]
                exact hliq'
              · rw [← harith]
                exact hl'
        · rw [if_neg hl] at hrun'
          simp only [Except.ok.injEq] at hrun'
          subst hrun'
          refine ⟨0, by simp, ?_, ?_⟩
          · intro j hj
            exact absurd hj (by omega)
          · intro _
            exact ⟨l, hliq, hl⟩
    · rw [if_neg hc] at hrun
      by_cases ht : 0 < b.tick_size
      · rw [if_pos ht] at hrun
        simp only [Except.ok.injEq] at hrun
        subst hrun
        refine ⟨0, by simp, ?_, ?_⟩
        · intro j hj
          exact absurd hj (by omega)
        · intro hlp
          exact absurd ⟨ht, hlp⟩ hc
      · rw [if_neg ht] at hrun
        exact absurd hrun (by simp)

/-- Claim C3: whenever `best_deleverage_price` returns a value `r`, the value
arises from scanning downward from `gridLevels[-2]` in steps of `tick_size`:
`r = gridLevels[-2] - k * tickSize` for some `k`, every earlier tested price
was at or above `lowerBound` and satisfied
`liquidationPrice(investedAmount, price) < price`, the scan stopped at the
first tested price where that condition is false (when `r ≥ lowerBound`),
and consequently `r` never exceeds `gridLevels[-2]`. -/
theorem claim_C3_best_deleverage (b : FuturesGridBot) (invested_amount r : ℚ)
    (h : b.best_deleverage_price invested_amount = .ok r) :
    ∃ k : ℕ,
      r = b.toGridBot.grid_levels.getD (b.toGridBot.grid_levels.length - 2) 0
        - (k : ℚ) * b.tick_size ∧
      (∀ j : ℕ, j < k →
        b.lower_price ≤ b.toGridBot.grid_levels.getD (b.toGridBot.grid_levels.length - 2) 0
          - (j : ℚ) * b.tick_size ∧
        ∃ l, b.liquidation_price invested_amount
            (b.toGridBot.grid_levels.getD (b.toGridBot.grid_levels.length - 2) 0
              - (j : ℚ) * b.tick_size) = .ok l ∧
          l < b.toGridBot.grid_levels.getD (b.toGridBot.grid_levels.length - 2) 0
            - (j : ℚ) * b.tick_size) ∧
      (b.lower_price ≤ r →
        ∃ l, b.liquidation_price invested_amount r = .ok l ∧ ¬ l < r) ∧
      r ≤ b.toGridBot.grid_levels.getD (b.toGridBot.grid_levels.length - 2) 0 := by
  simp only [FuturesGridBot.best_deleverage_price] at h
  by_cases hlen : b.toGridBot.grid_levels.length < 2
  · rw [if_pos hlen] at h
    exact absurd h (by simp)
  · rw [if_neg hlen] at h
    have ht : 0 < b.tick_size := by
      by_contra ht
      rw [bestDeleverageLoop_eq] at h
      rw [if_neg (fun hc => ht hc.1), if_neg ht] at h
      exact absurd h (by simp)
    obtain ⟨k, hk, hall, hstop⟩ := bestDeleverageLoop_spec b invested_amount
      ((⌊((b.toGridBot.grid_levels.getD (b.toGridBot.grid_levels.length - 2) 0)
          - b.lower_price) / b.tick_size⌋ + 1).toNat)
      (b.toGridBot.grid_levels.getD (b.toGridBot.grid_levels.length - 2) 0) r le_rfl h
    refine ⟨k, hk, hall, hstop, ?_⟩
    rw [hk]
    have hnn : 0 ≤ (k : ℚ) * b.tick_size := mul_nonneg (by positivity) ht.le
    linarith

lemma futBot2_liq_eval : futBot2.liquidation_price (-20) 175 = .ok (957 / 5) := by
  have htake : futBot2.toGridBot.grid_levels.take futBot2.grid_number.toNat
      = [100, 125, 150, 175] := by
    rw [show futBot2.toGridBot = sampleBot from rfl, sampleBot_levels]
    rfl
  simp only [FuturesGridBot.liquidation_price, htake]
  norm_num [liqStep, show futBot2.leverage = (2 : ℤ) from rfl,
    show futBot2.qty_per_order = 1 from rfl,
    show futBot2.maintenance_margin_rate = 4 / 1000 from rfl,
    show futBot2.entry_price = 150 from rfl]

lemma futBot2_best_deleverage_eval : futBot2.best_deleverage_price (-20) = .ok 175 := by
  simp only [FuturesGridBot.best_deleverage_price]
  rw [if_neg (by rw [show futBot2.toGridBot = sampleBot from rfl, sampleBot_levels]; norm_num)]
  rw [show futBot2.toGridBot.grid_levels.getD (futBot2.toGridBot.grid_levels.length - 2) 0
      = (175 : ℚ) from by
    rw [show futBot2.toGridBot = sampleBot from rfl, sampleBot_levels]
    rfl]
  rw [bestDeleverageLoop_eq]
  rw [if_pos ⟨by norm_num [show futBot2.tick_size = 1 from rfl],
    by norm_num [show futBot2.lower_price = 100 from rfl]⟩]
  rw [futBot2_liq_eval]
  norm_num

theorem claim_C3_witness :
    futBot2.best_deleverage_price (-20) = .ok 175 ∧
    ∃ k : ℕ,
      (175 : ℚ) = futBot2.toGridBot.grid_levels.getD (futBot2.toGridBot.grid_levels.length - 2) 0
        - (k : ℚ) * futBot2.tick_size ∧
      (∀ j : ℕ, j < k →
        futBot2.lower_price ≤
          futBot2.toGridBot.grid_levels.getD (futBot2.toGridBot.grid_levels.length - 2) 0
          - (j : ℚ) * futBot2.tick_size ∧
        ∃ l, futBot2.liquidation_price (-20)
            (futBot2.toGridBot.grid_levels.getD (futBot2.toGridBot.grid_levels.length - 2) 0
              - (j : ℚ) * futBot2.tick_size) = .ok l ∧
          l < futBot2.toGridBot.grid_levels.getD (futBot2.toGridBot.grid_levels.length - 2) 0
            - (j : ℚ) * futBot2.tick_size) ∧
      ((futBot2.lower_price ≤ 175 →
        ∃ l, futBot2.liquidation_price (-20) 175 = .ok l ∧ ¬ l < 175)) ∧
      (175 : ℚ) ≤ futBot2.toGridBot.grid_levels.getD
        (futBot2.toGridBot.grid_levels.length - 2) 0 :=
  ⟨futBot2_best_deleverage_eval,
   claim_C3_best_deleverage futBot2 (-20) 175 futBot2_best_deleverage_eval⟩
